import Mathlib

/-!
Verification of the Cloud Armor rules library (`pkg/cloudarmor`).

The Go sources are shallowly embedded: Go strings are modelled at the byte
level (`List Nat`, each element < 256) for the byte-oriented decoders
(`urlDecodeString`, `urlDecodeUniString`, `base64DecodeString`) and at the
code-point level (`List Nat`) for the rune-oriented functions
(`lowerASCII`, `upperASCII`, `utf8ToUnicodeString`).  Fallible Go code
returning `ref.Val` errors is modelled with `Except String`/`Option`.
-/

namespace CloudArmor

/-! ### Byte and hex helpers (net/url's ishex / unhex) -/

/-- Model of net/url `ishex`: whether a byte is an ASCII hex digit. -/
def ishex (c : Nat) : Bool :=
  (48 ≤ c && c ≤ 57) || (97 ≤ c && c ≤ 102) || (65 ≤ c && c ≤ 70)

/-- Model of net/url `unhex`: the value of an ASCII hex digit byte. -/
def unhex (c : Nat) : Nat :=
  if 48 ≤ c && c ≤ 57 then c - 48
  else if 97 ≤ c && c ≤ 102 then c - 97 + 10
  else if 65 ≤ c && c ≤ 70 then c - 65 + 10
  else 0

/-- UTF-8 encoding of one code point, as a byte list (standard 1-4 byte form). -/
def utf8EncodeRune (v : Nat) : List Nat :=
  if v < 0x80 then [v]
  else if v < 0x800 then [0xC0 + v / 64, 0x80 + v % 64]
  else if v < 0x10000 then [0xE0 + v / 4096, 0x80 + v / 64 % 64, 0x80 + v % 64]
  else [0xF0 + v / 262144, 0x80 + v / 4096 % 64, 0x80 + v / 64 % 64, 0x80 + v % 64]

/-- The bytes of a Lean string under UTF-8 (used to write concrete inputs). -/
def strBytes (s : String) : List Nat :=
  (s.data.map (fun c => utf8EncodeRune c.val.toNat)).flatten

/-! ### url.QueryUnescape (net/url `unescape` in query mode)

Model of Go's `url.QueryUnescape`: every well-formed `%XX` escape becomes the
byte `XX`, `+` becomes a space (query-component mode), any malformed `%`
escape is an error, all other bytes are copied.  Go performs a validation
pass followed by a build pass; the single recursive pass below is
behaviourally identical.  The error value carries the offending slice
(`%` plus up to two following bytes), as Go's `EscapeError` does. -/
def queryUnescape : List Nat → Except (List Nat) (List Nat)
  | [] => .ok []
  | 37 :: a :: b :: rest =>
    if ishex a && ishex b then
      (queryUnescape rest).map (fun t => (unhex a * 16 + unhex b) :: t)
    else .error (37 :: a :: [b])
  | [37, a] => .error [37, a]
  | [37] => .error [37]
  | 43 :: rest => (queryUnescape rest).map (fun t => 32 :: t)
  | c :: rest => (queryUnescape rest).map (fun t => c :: t)

/-- Model of `urlDecodeString` (cloudarmor.go): delegate to
`url.QueryUnescape`; on error produce a CEL error value (here the Go
`EscapeError` message, with the offending slice rendered byte-for-byte). -/
def urlDecodeString (s : List Nat) : Except (List Nat) (List Nat) :=
  queryUnescape s

/-! ### lowerASCII / upperASCII (rune-level)

Go's `lowerASCII` converts the string to a rune slice but then iterates
`for i, r := range str`, where `i` is the BYTE offset of rune `r`; the byte
offset is used to index the RUNE slice.  Writing past the end of the rune
slice is a Go runtime panic, modelled as `none`. -/

/-- `unicode.ToLower` restricted to the ASCII range (the only range on which
the source applies it): `A`-`Z` map down by 32, all other ASCII unchanged. -/
def asciiToLower (r : Nat) : Nat :=
  if 65 ≤ r && r ≤ 90 then r + 32 else r

/-- `unicode.ToUpper` restricted to the ASCII range. -/
def asciiToUpper (r : Nat) : Nat :=
  if 97 ≤ r && r ≤ 122 then r - 32 else r

/-- Number of UTF-8 bytes of a code point (Go `utf8.RuneLen` on valid runes). -/
def utf8Len (v : Nat) : Nat :=
  if v < 0x80 then 1 else if v < 0x800 then 2 else if v < 0x10000 then 3 else 4

/-- The `(byte offset, rune)` pairs produced by Go's `for i, r := range str`. -/
def byteIndexPairs (pos : Nat) : List Nat → List (Nat × Nat)
  | [] => []
  | r :: t => (pos, r) :: byteIndexPairs (pos + utf8Len r) t

/-- In-place update of index `i`; `none` when `i` is out of range
(a Go index-out-of-range panic). -/
def listSet : List Nat → Nat → Nat → Option (List Nat)
  | [], _, _ => none
  | _ :: t, 0, v => some (v :: t)
  | a :: t, n + 1, v => (listSet t n v).map (fun t2 => a :: t2)

/-- The mutation loop of `lowerASCII`: for each `(byte offset, rune)` pair,
ASCII runes are lowered and written at the BYTE offset into the rune
slice (the bug in the source); out-of-range writes are Go panics. -/
def lowerASCIIGo : List (Nat × Nat) → List Nat → Option (List Nat)
  | [], acc => some acc
  | (i, r) :: t, acc =>
    if r ≤ 127 then
      match listSet acc i (asciiToLower r) with
      | some acc2 => lowerASCIIGo t acc2
      | none => none
    else lowerASCIIGo t acc

/-- Model of `lowerASCII` (cloudarmor.go): `runes := []rune(str)` then the
byte-indexed mutation loop.  `none` models the runtime panic. -/
def lowerASCII (s : List Nat) : Option (List Nat) :=
  lowerASCIIGo (byteIndexPairs 0 s) s

/-- Model of `upperASCII` (cloudarmor.go): iterates over the RUNE slice
(`for i, r := range runes`), so indices are always in range. -/
def upperASCII (s : List Nat) : List Nat :=
  s.map (fun r => if r ≤ 127 then asciiToUpper r else r)

/-! ### urlDecodeUniString -/

/-- Model of `strconv.Unquote("\"\\u" + 4 chars + "\"")` as used by
`urlDecodeUniString`: succeeds exactly when the four bytes are hex digits
whose value is a valid rune (for 16-bit values: not a UTF-16 surrogate). -/
def uniUnquote (d1 d2 d3 d4 : Nat) : Option Nat :=
  if ishex d1 && ishex d2 && ishex d3 && ishex d4 then
    let v := ((unhex d1 * 16 + unhex d2) * 16 + unhex d3) * 16 + unhex d4
    if 0xD800 ≤ v && v ≤ 0xDFFF then none else some v
  else none

/-- Model of `urlDecodeUniString` (cloudarmor.go).  Scans bytes left to
right: `%u`/`%U` + 4 bytes is decoded via `strconv.Unquote` and on success
the rune is appended (UTF-8) and 6 bytes consumed; otherwise the scan falls
through to the single-byte `%XX` attempt via `url.QueryUnescape` of the
3-byte window, copying `%` literally if that fails; `+` becomes a space;
everything else is copied.  Truncated escapes are hard errors. -/
def urlDecodeUniString : List Nat → Except String (List Nat)
  | [] => .ok []
  | 37 :: c1 :: d1 :: d2 :: d3 :: d4 :: rest4 =>
    if (c1 = 117 || c1 = 85) then
      match uniUnquote d1 d2 d3 d4 with
      | some v => (urlDecodeUniString rest4).map (fun t => utf8EncodeRune v ++ t)
      | none =>
        -- fall through to %XY: 'u'/'U' is not hex, so the 3-byte
        -- unescape fails and '%' is copied without advancing.
        (urlDecodeUniString (c1 :: d1 :: d2 :: d3 :: d4 :: rest4)).map
          (fun t => 37 :: t)
    else
      match queryUnescape [37, c1, d1] with
      | .ok b => (urlDecodeUniString (d2 :: d3 :: d4 :: rest4)).map (fun t => b ++ t)
      | .error _ =>
        (urlDecodeUniString (c1 :: d1 :: d2 :: d3 :: d4 :: rest4)).map
          (fun t => 37 :: t)
  | [37, c1, c2, c3, c4] =>
    -- five bytes: a %u escape is truncated (idx+5 = len), a plain %XY is not.
    if (c1 = 117 || c1 = 85) then .error "invalid URL escape sequence"
    else
      match queryUnescape [37, c1, c2] with
      | .ok b => (urlDecodeUniString [c3, c4]).map (fun t => b ++ t)
      | .error _ => (urlDecodeUniString [c1, c2, c3, c4]).map (fun t => 37 :: t)
  | [37, c1, c2, c3] =>
    if (c1 = 117 || c1 = 85) then .error "invalid URL escape sequence"
    else
      match queryUnescape [37, c1, c2] with
      | .ok b => (urlDecodeUniString [c3]).map (fun t => b ++ t)
      | .error _ => (urlDecodeUniString [c1, c2, c3]).map (fun t => 37 :: t)
  | [37, c1, c2] =>
    if (c1 = 117 || c1 = 85) then .error "invalid URL escape sequence"
    else
      match queryUnescape [37, c1, c2] with
      | .ok b => .ok b
      | .error _ => (urlDecodeUniString [c1, c2]).map (fun t => 37 :: t)
  | [37, _] => .error "invalid URL escape sequence"
  | [37] => .error "invalid URL escape sequence"
  | 43 :: rest => (urlDecodeUniString rest).map (fun t => 32 :: t)
  | c :: rest => (urlDecodeUniString rest).map (fun t => c :: t)

/-! ### base64DecodeString (encoding/base64)

Model of Go's `encoding/base64` decoding as used by `base64DecodeString`:
`base64.StdEncoding.DecodeString` (padded standard alphabet) and
`base64.RawStdEncoding.DecodeString` (same alphabet, no padding), both
non-strict.  Every decode failure of `DecodeString` is a
`base64.CorruptInputError` carrying the byte offset of the offence. -/

/-- The `CorruptInputError` produced by `encoding/base64` decoding. -/
inductive B64Error
  | corruptInput (off : Nat)
deriving DecidableEq

/-- The Go type assertion `err.(base64.CorruptInputError)` on a decode error. -/
def isCorruptInput : B64Error → Bool
  | .corruptInput _ => true

/-- `base64.CorruptInputError.Error()`. -/
def b64ErrMsg : B64Error → String
  | .corruptInput off => "illegal base64 data at input byte " ++ toString off

/-- The standard-alphabet `decodeMap`: 6-bit value of a byte, 255 if invalid. -/
def b64Idx (c : Nat) : Nat :=
  if 65 ≤ c && c ≤ 90 then c - 65
  else if 97 ≤ c && c ≤ 122 then c - 71
  else if 48 ≤ c && c ≤ 57 then c + 4
  else if c = 43 then 62
  else if c = 47 then 63
  else 255

/-- Reassembly of one quantum (`decodeQuantum`'s tail): `dlen` characters
of 6-bit values produce `dlen - 1` bytes. -/
def b64Assemble (dbuf : List Nat) (dlen : Nat) : List Nat :=
  let val := dbuf.getD 0 0 * 262144 + dbuf.getD 1 0 * 4096 + dbuf.getD 2 0 * 64
    + dbuf.getD 3 0
  if dlen = 4 then [val / 65536 % 256, val / 256 % 256, val % 256]
  else if dlen = 3 then [val / 65536 % 256, val / 256 % 256]
  else [val / 65536 % 256]

/-- Trailing input after a padded quantum: only `\n`/`\r` may remain; any
other byte at position `pos` is the deferred `CorruptInputError(si)`
(`DecodeString` surfaces it, discarding the decoded bytes). -/
def b64TrailScan (bytes : List Nat) (pos : Nat) : List Nat → Except B64Error (List Nat)
  | [] => .ok bytes
  | 10 :: t => b64TrailScan bytes (pos + 1) t
  | 13 :: t => b64TrailScan bytes (pos + 1) t
  | _ :: _ => .error (.corruptInput pos)

/-- After a first `=` at `j = 2`: newlines may intervene, then a second `=`
must follow (`CorruptInputError(len(src))` when input ends,
`CorruptInputError(si-1)` on any other byte), then only trailing newlines. -/
def b64PadTwo (dbuf : List Nat) (pos : Nat) : List Nat → Except B64Error (List Nat)
  | [] => .error (.corruptInput pos)
  | 10 :: t => b64PadTwo dbuf (pos + 1) t
  | 13 :: t => b64PadTwo dbuf (pos + 1) t
  | c2 :: t =>
    if c2 = 61 then b64TrailScan (b64Assemble dbuf 2) (pos + 1) t
    else .error (.corruptInput (pos - 1))

/-- Model of the `encoding/base64` decode loop (`Encoding.decode` iterating
`decodeQuantum`), fused into one left-to-right scan: `dbuf` holds the 6-bit
values of the current quantum (so `dbuf.length` is Go's `j`) and `pos` the
absolute position `si`.  `pad` selects `StdEncoding` (`=` padding) versus
`RawStdEncoding` (no padding); both are non-strict.  Valid characters fill
the quantum, a full quantum emits three bytes, `\n`/`\r` are skipped,
`=` enters the terminal padding states, any other byte is
`CorruptInputError` at its offset; at end of input a partial quantum of
`j ≥ 2` characters emits `j - 1` bytes when unpadded and is
`CorruptInputError(si - j)` when padding was required. -/
def b64Scan (pad : Bool) (dbuf : List Nat) (pos : Nat) : List Nat → Except B64Error (List Nat)
  | [] =>
    if dbuf.length = 0 then .ok []
    else if dbuf.length = 1 || pad then .error (.corruptInput (pos - dbuf.length))
    else .ok (b64Assemble dbuf dbuf.length)
  | c :: t =>
    let v := b64Idx c
    if v ≠ 255 then
      if dbuf.length = 3 then
        (b64Scan pad [] (pos + 1) t).map (fun bs => b64Assemble (dbuf ++ [v]) 4 ++ bs)
      else b64Scan pad (dbuf ++ [v]) (pos + 1) t
    else if c = 10 || c = 13 then b64Scan pad dbuf (pos + 1) t
    else if pad && c = 61 then
      if dbuf.length = 0 || dbuf.length = 1 then .error (.corruptInput pos)
      else if dbuf.length = 2 then b64PadTwo dbuf (pos + 1) t
      else b64TrailScan (b64Assemble dbuf 3) (pos + 1) t
    else .error (.corruptInput pos)

/-- `base64.StdEncoding.DecodeString`. -/
def stdDecodeString (s : List Nat) : Except B64Error (List Nat) :=
  b64Scan true [] 0 s

/-- `base64.RawStdEncoding.DecodeString`. -/
def rawStdDecodeString (s : List Nat) : Except B64Error (List Nat) :=
  b64Scan false [] 0 s

/-- Model of `base64DecodeString` (cloudarmor.go): try the padded standard
decode; when it fails with a `CorruptInputError` (the type assertion), retry
with the raw variant; surface the second error's message verbatim. -/
def base64DecodeString (s : List Nat) : Except String (List Nat) :=
  match stdDecodeString s with
  | .ok b => .ok b
  | .error e =>
    if isCorruptInput e then
      match rawStdDecodeString s with
      | .ok b => .ok b
      | .error e2 => .error (b64ErrMsg e2)
    else .error (b64ErrMsg e)

/-! ### writeHexStr / utf8ToUnicodeString (rune-level) -/

/-- The lowercase hex digit characters (code points) of `kHexChar`. -/
def kHexChar (n : Nat) : Nat :=
  if n < 10 then 48 + n else 97 + (n - 10)

/-- Model of `writeHexStr` (cloudarmor.go): `%u` followed by a variable
width lowercase hex rendering of `v`; the 6th digit only when
`v > 0xfffff`, the 5th only when `v > 0xffff`, the low four always. -/
def writeHexStr (v : Nat) : List Nat :=
  [37, 117]
    ++ (if v > 0xfffff then [kHexChar (v / 1048576)] else [])
    ++ (if v > 0xffff then [kHexChar (v / 65536 % 16)] else [])
    ++ [kHexChar (v / 4096 % 16), kHexChar (v / 256 % 16),
        kHexChar (v / 16 % 16), kHexChar (v % 16)]

/-- The per-code-point branch of `utf8ToUnicodeString` (cloudarmor.go). -/
def utf8ToUnicodePoint (r : Nat) : List Nat :=
  if r < 0x80 then [r]
  else if r < 0x800 then writeHexStr r
  else if r < 0x10000 then
    if 0xD800 ≤ r && r ≤ 0xDFFF then [r] else writeHexStr r
  else if r < 0x110000 then writeHexStr r
  else [r]

/-- Model of `utf8ToUnicodeString` (cloudarmor.go): the input string viewed
as its decoded code points (`for _, r := range str`), each rendered by the
branch above; the output is the concatenation (as code points). -/
def utf8ToUnicodeString (s : List Nat) : List Nat :=
  (s.map utf8ToUnicodePoint).flatten

/-! ### String helpers: strings.ToLower / strings.Contains / strconv.Quote -/

/-- ASCII-only lowercasing of one code point: `A`-`Z` map down by 32, all
other code points are kept.  This is NOT `strings.ToLower`; it is used to
state claim C10's precondition ("equal after ASCII lowercasing") exactly as
frozen. -/
def asciiLowerChar (c : Char) : Char :=
  if 65 ≤ c.val.toNat && c.val.toNat ≤ 90 then Char.ofNat (c.val.toNat + 32) else c

/-- ASCII-only lowercasing of a string (claim C10's notion of
"ASCII lowercasing"). -/
def asciiLowerKey (s : String) : String :=
  String.mk (s.data.map asciiLowerChar)

/-- Model of `strings.ToLower` on one code point, faithful on the domain
the theorems below use: on the ASCII range (`A`-`Z` map down by 32, other
ASCII kept — exactly Go) and on U+212A KELVIN SIGN, whose Unicode simple
lower case is `k` (the mapping Go applies).  Any other code point above the
ASCII range is kept, whereas Go applies full Unicode simple case mapping
there; every theorem below that quantifies over header keys therefore
restricts them to ASCII (where this model is exact), and the one concrete
non-ASCII key exercised is U+212A. -/
def goToLowerChar (c : Char) : Char :=
  if 65 ≤ c.val.toNat && c.val.toNat ≤ 90 then Char.ofNat (c.val.toNat + 32)
  else if c.val.toNat = 8490 then Char.ofNat 107
  else c

/-- Model of `strings.ToLower` (faithful on ASCII strings and on U+212A,
see `goToLowerChar`). -/
def goToLower (s : String) : String :=
  String.mk (s.data.map goToLowerChar)

/-- Whether `pat` is an initial segment of `l`. -/
def listLeads : List Char → List Char → Bool
  | _, [] => true
  | [], _ :: _ => false
  | a :: l, b :: pat => a = b && listLeads l pat

/-- Whether `pat` occurs as a contiguous run of `l`. -/
def listHasRun : List Char → List Char → Bool
  | [], pat => pat.isEmpty
  | a :: t, pat => listLeads (a :: t) pat || listHasRun t pat

/-- Model of `strings.Contains s sub`. -/
def goContains (s sub : String) : Bool :=
  listHasRun s.data sub.data

/-- Two lowercase hex digits of a byte. -/
def hex2 (n : Nat) : String :=
  String.mk [Char.ofNat (kHexChar (n / 16 % 16)), Char.ofNat (kHexChar (n % 16))]

/-- Model of `strconv.Quote` on one character (as used by `%q`): ASCII is
rendered exactly as Go does (backslash escapes for quote and backslash, named escapes
for control characters, `\xNN` otherwise); code points above ASCII are kept
as-is (Go escapes the non-printable ones, which no claim exercises). -/
def goQuoteChar (c : Char) : String :=
  if c = '"' then "\\\""
  else if c = '\\' then "\\\\"
  else if 32 ≤ c.val.toNat && c.val.toNat ≤ 126 then String.singleton c
  else if c = '\n' then "\\n"
  else if c = '\t' then "\\t"
  else if c = '\r' then "\\r"
  else if c.val.toNat = 7 then "\\a"
  else if c.val.toNat = 8 then "\\b"
  else if c.val.toNat = 12 then "\\f"
  else if c.val.toNat = 11 then "\\v"
  else if c.val.toNat < 128 then "\\x" ++ hex2 c.val.toNat
  else String.singleton c

/-- Model of `strconv.Quote` (the `%q` verb). -/
def goQuote (s : String) : String :=
  "\"" ++ String.join (s.data.map goQuoteChar) ++ "\""

/-- The `%v` rendering of a Go bool (also of a CEL `types.Bool`). -/
def goFmtBool (b : Bool) : String :=
  if b then "true" else "false"

/-! ### Variables (variables.go)

Go's `Headers` map is modelled as an association list with unique keys;
`hInsert` is Go map assignment (replace in place or append) and `hLookup`
Go map lookup.  Map iteration is modelled as iteration over the list in
order (Go's order is unspecified; the claims proved here do not depend on
it, and the one normalization loop that mutates the map while ranging is
modelled as ranging over the original entries). -/

/-- Go map assignment `m[k] = v`. -/
def hInsert : List (String × String) → String → String → List (String × String)
  | [], k, v => [(k, v)]
  | (k2, v2) :: t, k, v =>
    if k2 = k then (k, v) :: t else (k2, v2) :: hInsert t k v

/-- Go map lookup `m[k]` (present check). -/
def hLookup : List (String × String) → String → Option String
  | [], _ => none
  | (k2, v2) :: t, k => if k2 = k then some v2 else hLookup t k

/-- The header-normalization loop shared by `SafeVariables` and
`HTTPHeaders` — `for k, val := range m { m[strings.ToLower(k)] = val }` —
with the map range order made explicit: `ord` is the sequence of
`(key, value)` pairs the `range` visits (Go's map iteration order is
unspecified, and the loop assigns while ranging, so `ord` is any list that
visits the original entries and possibly lowered copies inserted by the
loop itself; theorems hypothesize exactly that), and `m` is the map being
mutated. -/
def lowerHeaderKeysOrd (ord m : List (String × String)) : List (String × String) :=
  ord.foldl (fun acc p => hInsert acc (goToLower p.1) p.2) m

/-- The normalization loop with the iteration order fixed to the entry
list's order (one admissible execution). -/
def lowerHeaderKeys (m : List (String × String)) : List (String × String) :=
  lowerHeaderKeysOrd m m

/-- Model of `HTTPHeaders` (variables.go). -/
def HTTPHeaders (headers : List (String × String)) : List (String × String) :=
  lowerHeaderKeys headers

/-- `Request` (variables.go); `none` models a nil `Headers` map. -/
structure Request where
  method : String := ""
  headers : Option (List (String × String)) := none
  path : String := ""
  query : String := ""
  scheme : String := ""
deriving Repr, DecidableEq

/-- `Origin` (variables.go). -/
structure Origin where
  ip : String := ""
  regionCode : String := ""
  asn : Int := 0
  userIP : String := ""
  tlsJA3Fingerprint : String := ""
  tlsJA4Fingerprint : String := ""
deriving Repr, DecidableEq

/-- `RecaptchaExemption` (variables.go). -/
structure RecaptchaExemption where
  valid : Bool := false
deriving Repr, DecidableEq

/-- `RecaptchaAction` (variables.go); the float64 score is modelled as the
IEEE double it is. -/
structure RecaptchaAction where
  score : Float := 0.0
  captchaStatus : String := ""
  action : String := ""
  valid : Bool := false
deriving Repr

/-- `RecaptchaSession` (variables.go). -/
structure RecaptchaSession where
  score : Float := 0.0
  valid : Bool := false
deriving Repr

/-- `Token` (variables.go); `none` models a nil pointer. -/
structure Token where
  recaptchaExemption : Option RecaptchaExemption := none
  recaptchaAction : Option RecaptchaAction := none
  recaptchaSession : Option RecaptchaSession := none
deriving Repr

/-- `Variables` (variables.go); `none` models a nil pointer. -/
structure Variables where
  request : Option Request := none
  origin : Option Origin := none
  token : Option Token := none
deriving Repr

/-- Model of `SafeVariables` (variables.go): nil sub-records are replaced
with zero-valued ones, a nil header map with an empty one, and header keys
are run through the lowercasing loop. -/
def SafeVariables (v : Variables) : Variables :=
  let req0 := v.request.getD {}
  let req :=
    { req0 with headers := some (lowerHeaderKeys (req0.headers.getD [])) }
  let org := v.origin.getD {}
  let tok0 := v.token.getD {}
  let tok :=
    { tok0 with
      recaptchaExemption := some (tok0.recaptchaExemption.getD {})
      recaptchaAction := some (tok0.recaptchaAction.getD {})
      recaptchaSession := some (tok0.recaptchaSession.getD {}) }
  { request := some req, origin := some org, token := some tok }

/-- `SafeVariables` with the header map's range order made explicit
(`lowerHeaderKeysOrd`): `SafeVariables` is the instance whose order is the
entry list itself. -/
def SafeVariablesOrd (ord : List (String × String)) (v : Variables) : Variables :=
  let req0 := v.request.getD {}
  let req :=
    { req0 with headers := some (lowerHeaderKeysOrd ord (req0.headers.getD [])) }
  let org := v.origin.getD {}
  let tok0 := v.token.getD {}
  let tok :=
    { tok0 with
      recaptchaExemption := some (tok0.recaptchaExemption.getD {})
      recaptchaAction := some (tok0.recaptchaAction.getD {})
      recaptchaSession := some (tok0.recaptchaSession.getD {}) }
  { request := some req, origin := some org, token := some tok }

/-! ### Test suite (testsuite.go) -/

/-- `TestCase` (testsuite.go); the `When` field. -/
structure TestCase where
  name : String := ""
  whenVars : Option Variables := none
  expectOutput : Bool := false
  expectError : String := ""
deriving Repr

/-- `TestStatus` (testsuite.go). -/
structure TestStatus where
  name : String := ""
  pass : Bool := false
  fail : String := ""
deriving Repr, DecidableEq

/-- Model of `SafeTestCase` (testsuite.go). -/
def SafeTestCase (t : TestCase) : TestCase :=
  { t with whenVars := some (SafeVariables (t.whenVars.getD {})) }

/-- `TestSuite` (testsuite.go). -/
structure TestSuite where
  name : String := ""
  expr : String := ""
  tests : List TestCase := []
deriving Repr

/-- The validation/normalization loop of `TestSuiteFromYAML` (testsuite.go):
a case with both `expect: true` and a non-empty `error` aborts with an
error; otherwise each case is normalized with `SafeTestCase` in order. -/
def validateTests : List TestCase → Except String (List TestCase)
  | [] => .ok []
  | t :: rest =>
    if t.expectOutput && t.expectError ≠ "" then
      .error ("test case " ++ goQuote t.name ++ " has both expect and error")
    else (validateTests rest).map (fun r => SafeTestCase t :: r)

/-- Model of `TestSuiteFromYAML` after the (external) YAML unmarshal: the
validation/normalization loop applied to the parsed suite. -/
def TestSuiteFromYAML (ts : TestSuite) : Except String TestSuite :=
  (validateTests ts.tests).map (fun tests2 => { ts with tests := tests2 })

/-! ### RunRuleValidation (cloudarmor.go)

The compiled program is an external collaborator; its evaluation on one
test case is an oracle `eval : TestCase → Except String Bool` (a runtime
error message, or the boolean output — the compiled output type is bool). -/

/-- The per-case verdict logic of `RunRuleValidation`. -/
def evalVerdict (tc : TestCase) (res : Except String Bool) : TestStatus :=
  match res with
  | .error err =>
    if tc.expectError ≠ "" then
      if ¬ goContains err tc.expectError then
        { name := tc.name, pass := false,
          fail := "got error " ++ goQuote err ++ ", wanted error containing "
            ++ goQuote tc.expectError }
      else { name := tc.name, pass := true, fail := "" }
    else { name := tc.name, pass := false, fail := err }
  | .ok out =>
    if out = tc.expectOutput then { name := tc.name, pass := true, fail := "" }
    else { name := tc.name, pass := false,
           fail := "expected result " ++ goFmtBool tc.expectOutput ++ ", got "
             ++ goFmtBool out }

/-- Model of `RunRuleValidation` (cloudarmor.go): one status per case, in
order. -/
def RunRuleValidation (eval : TestCase → Except String Bool)
    (testCases : List TestCase) : List TestStatus :=
  testCases.map (fun tc => evalVerdict tc (eval tc))

/-! ### The has(...) macro factory (cloudarmor.go) -/

/-- CEL literal constants (`ast.LiteralKind` payloads). -/
inductive CelLiteral
  | str (s : String)
  | int (i : Int)
  | bool (b : Bool)
  | double (f : Float)
deriving Repr

/-- A CEL parse-tree shape (`ast.Expr` kinds relevant to the macro):
identifiers, literals, field selections, calls (member calls carry a
target), and list literals standing in for the remaining kinds. -/
inductive CelExpr
  | ident (name : String)
  | lit (l : CelLiteral)
  | select (operand : CelExpr) (field : String)
  | call (target : Option CelExpr) (function : String) (args : List CelExpr)
  | listE (elems : List CelExpr)
deriving Repr

/-- The rewrite produced by `mef.NewPresenceTest(operand, field)`. -/
structure PresenceTest where
  operand : CelExpr
  field : String
deriving Repr

/-- Model of `hasWithIndexMacroFactory` (cloudarmor.go) applied to the
macro's single argument; the pair is Go's `(ast.Expr, *cel.Error)` return
(`(none, none)` is the "no match" answer). -/
def hasWithIndexMacroFactory (arg : CelExpr) : Option PresenceTest × Option String :=
  match arg with
  | .select op f => (some ⟨op, f⟩, none)
  | .call target fn args =>
    if fn ≠ "_[_]" then (none, none)
    else if target.isSome || args.length ≠ 2 then (none, none)
    else
      match args with
      | [obj, .lit (.str s)] => (some ⟨obj, s⟩, none)
      | _ => (none, none)
  | _ => (none, none)

/-- Decidable equality of `Except` values (for evaluating the models at
concrete inputs). -/
instance exceptDecEq {ε α : Type} [DecidableEq ε] [DecidableEq α] :
    DecidableEq (Except ε α) := fun x y =>
  match x, y with
  | .ok a, .ok b =>
    if h : a = b then isTrue (by rw [h])
    else isFalse (fun hh => h (Except.ok.inj hh))
  | .error a, .error b =>
    if h : a = b then isTrue (by rw [h])
    else isFalse (fun hh => h (Except.error.inj hh))
  | .ok _, .error _ => isFalse (fun hh => Except.noConfusion hh)
  | .error _, .ok _ => isFalse (fun hh => Except.noConfusion hh)

/-- Whether an `Except` value is an error. -/
def exceptIsError {ε α : Type} : Except ε α → Bool
  | .error _ => true
  | .ok _ => false

/-! ## Claim-side definitions (stated from the spec's words, to be compared
with the definitions translated from the source) -/

/-- The per-code-point output of `utf8ToUnicode` as claim C7 words it:
code points below 0x80, in the surrogate range, or at/above 0x110000 are
copied; every other code point `v` becomes `%u` plus lowercase hex with the
low four digits always present, a 5th digit exactly when `v > 0xffff` and a
6th exactly when `v > 0xfffff` — independent of any byte-length branch. -/
def c7SpecPoint (v : Nat) : List Nat :=
  if v < 0x80 ∨ (0xD800 ≤ v ∧ v ≤ 0xDFFF) ∨ 0x110000 ≤ v then [v]
  else
    37 :: 117 ::
      ((if 0xfffff < v then [kHexChar (v >>> 20)] else [])
        ++ (if 0xffff < v then [kHexChar (v >>> 16 % 16)] else [])
        ++ [kHexChar (v >>> 12 % 16), kHexChar (v >>> 8 % 16),
            kHexChar (v >>> 4 % 16), kHexChar (v % 16)])

/-- The `has(...)` rewrite as claim C8 words it: a field select rewrites to
a presence test on its operand and field; a global (non-member) index call
of exactly two arguments whose second argument is a string literal rewrites
to a presence test on the indexed object and the literal key; every other
shape is not rewritten. -/
def c8SpecRewrite (arg : CelExpr) : Option PresenceTest :=
  match arg with
  | .select op f => some ⟨op, f⟩
  | .call none fn [obj, .lit (.str s)] =>
    if fn = "_[_]" then some ⟨obj, s⟩ else none
  | _ => none

/-! ## Claims -/

/-- Claim C7: `utf8ToUnicode` copies code points below 0x80, in the
surrogate range, or at/above 0x110000 unmodified, and renders every other
code point as `%u` plus variable-width lowercase hex — the low four digits
always, a 5th digit exactly when the value exceeds 0xffff and a 6th exactly
when it exceeds 0xfffff — with the same threshold arithmetic in every
byte-length branch. -/
theorem utf8ToUnicode_matches_spec :
    (∀ v : Nat, utf8ToUnicodePoint v = c7SpecPoint v) ∧
    (∀ s : List Nat, utf8ToUnicodeString s = (s.map c7SpecPoint).flatten) := by
  have point : ∀ v : Nat, utf8ToUnicodePoint v = c7SpecPoint v := by
    intro v
    unfold utf8ToUnicodePoint c7SpecPoint writeHexStr
    simp only [Nat.shiftRight_eq_div_pow]
    norm_num
    split_ifs <;> first | rfl | omega
  refine ⟨point, fun s => ?_⟩
  unfold utf8ToUnicodeString
  rw [List.map_congr_left (fun v _ => point v)]

/-- Claim C8: the `has(...)` macro factory rewrites a field select, and a
global two-argument index call with a string-literal key, to the
corresponding presence test, and produces no rewrite and no error on every
other argument shape. -/
theorem hasMacro_matches_spec :
    ∀ arg : CelExpr, hasWithIndexMacroFactory arg = (c8SpecRewrite arg, none) := by
  intro arg
  match arg with
  | .ident n => rfl
  | .lit l => rfl
  | .listE es => rfl
  | .select op f => rfl
  | .call target fn args =>
    unfold hasWithIndexMacroFactory c8SpecRewrite
    rcases target with _ | tgt
    · rcases args with _ | ⟨a, _ | ⟨b, _ | ⟨c, rest⟩⟩⟩
      · by_cases hfn : fn = "_[_]" <;> simp [hfn]
      · by_cases hfn : fn = "_[_]" <;> simp [hfn]
      · rcases b with n | l | ⟨op, f⟩ | ⟨t2, f2, a2⟩ | es
        case lit =>
          rcases l with s | i | bb | ff <;>
            (by_cases hfn : fn = "_[_]" <;> simp [hfn])
        all_goals by_cases hfn : fn = "_[_]" <;> simp [hfn]
      · by_cases hfn : fn = "_[_]" <;> simp [hfn]
    · by_cases hfn : fn = "_[_]" <;> simp [hfn]

/-- The verdict of one test case as claim C5 words it: on a runtime error,
PASS when a declared expected-error substring is contained in the message,
FAIL quoting both when a declared substring is not contained, FAIL with the
raised error as the reason when none is declared; on success, PASS exactly
when the boolean result equals the expected boolean (false when
unspecified), else FAIL quoting expected versus actual. -/
def c5SpecVerdict (tc : TestCase) (res : Except String Bool) : TestStatus :=
  match res with
  | .error err =>
    if tc.expectError ≠ "" then
      if goContains err tc.expectError then
        { name := tc.name, pass := true, fail := "" }
      else
        { name := tc.name, pass := false,
          fail := "got error " ++ goQuote err ++ ", wanted error containing "
            ++ goQuote tc.expectError }
    else { name := tc.name, pass := false, fail := err }
  | .ok out =>
    if out = tc.expectOutput then { name := tc.name, pass := true, fail := "" }
    else
      { name := tc.name, pass := false,
        fail := "expected result " ++ goFmtBool tc.expectOutput ++ ", got "
          ++ goFmtBool out }

/-- Claim C5: `RunRuleValidation` produces, per test case, exactly the
verdict described by the spec's case analysis over the evaluation outcome. -/
theorem runRuleValidation_matches_spec :
    ∀ (eval : TestCase → Except String Bool) (testCases : List TestCase),
      RunRuleValidation eval testCases
        = testCases.map (fun tc => c5SpecVerdict tc (eval tc)) := by
  intro eval testCases
  unfold RunRuleValidation
  refine List.map_congr_left (fun tc _ => ?_)
  unfold evalVerdict c5SpecVerdict
  cases eval tc with
  | error err =>
    by_cases he : tc.expectError = "" <;>
      by_cases hc : goContains err tc.expectError <;> simp [he, hc]
  | ok out => by_cases ho : out = tc.expectOutput <;> simp [ho]

/-- Claim C6: `base64Decode` first attempts the padded standard decode and
returns its bytes on success; on failure it retries with the raw unpadded
variant exactly when the failure is a corrupt-input error (which every
`DecodeString` failure is); the retry's bytes are returned on success and
its error verbatim on failure.  `"YWJj"` decodes to `"abc"`. -/
theorem base64Decode_matches_spec :
    (∀ (s b : List Nat), stdDecodeString s = .ok b → base64DecodeString s = .ok b) ∧
    (∀ (s : List Nat) (e : B64Error), stdDecodeString s = .error e →
        isCorruptInput e = true →
        base64DecodeString s
          = (match rawStdDecodeString s with
             | .ok b => .ok b
             | .error e2 => .error (b64ErrMsg e2))) ∧
    (∀ (s : List Nat) (e : B64Error), stdDecodeString s = .error e →
        isCorruptInput e = false →
        base64DecodeString s = .error (b64ErrMsg e)) ∧
    (∀ e : B64Error, isCorruptInput e = true) ∧
    base64DecodeString (strBytes "YWJj") = .ok (strBytes "abc") := by
  refine ⟨?_, ?_, ?_, ?_, ?_⟩
  · intro s b h; unfold base64DecodeString; rw [h]
  · intro s e h hc; unfold base64DecodeString; rw [h]; simp [hc]
  · intro s e h hc; unfold base64DecodeString; rw [h]; simp [hc]
  · intro e; cases e; rfl
  · rfl

/-- Witness for claim C6 at the concrete input `"YWJj"`: the padded decode
succeeds with the bytes of `"abc"`, and the theorem's first clause applies. -/
theorem base64Decode_matches_spec_witness :
    base64DecodeString (strBytes "YWJj") = .ok (strBytes "abc") :=
  base64Decode_matches_spec.1 (strBytes "YWJj") (strBytes "abc") rfl

/-- `validateTests` succeeds on a list with no offending case, normalizing
each case with `SafeTestCase` in order. -/
theorem validateTests_ok (l : List TestCase)
    (h : ∀ t ∈ l, t.expectOutput = true → t.expectError = "") :
    validateTests l = .ok (l.map SafeTestCase) := by
  induction l with
  | nil => rfl
  | cons t rest ih =>
    have ht := h t (List.mem_cons_self t rest)
    have hcond : (t.expectOutput && t.expectError ≠ "") = false := by
      cases ho : t.expectOutput with
      | false => simp
      | true => simp [ht ho]
    unfold validateTests
    rw [hcond]
    simp only [Bool.false_eq_true, if_false]
    rw [ih (fun t2 h2 => h t2 (List.mem_cons_of_mem t h2))]
    rfl

/-- `validateTests` fails as soon as the list contains an offending case. -/
theorem validateTests_err (l : List TestCase)
    (h : ∃ t ∈ l, t.expectOutput = true ∧ t.expectError ≠ "") :
    exceptIsError (validateTests l) = true := by
  induction l with
  | nil => obtain ⟨t, ht, _⟩ := h; exact absurd ht (List.not_mem_nil t)
  | cons t rest ih =>
    obtain ⟨t2, ht2, ho, he⟩ := h
    unfold validateTests
    rcases List.mem_cons.mp ht2 with heq | hmem
    · subst heq
      rw [ho]
      simp [he, exceptIsError]
    · by_cases hcond : (t.expectOutput && t.expectError ≠ "") = true
      · rw [hcond]; rfl
      · rw [Bool.not_eq_true] at hcond
        rw [hcond]
        simp only [Bool.false_eq_true, if_false]
        have := ih ⟨t2, hmem, ho, he⟩
        cases hv : validateTests rest with
        | ok r => rw [hv] at this; exact absurd this (by simp [exceptIsError])
        | error msg => rfl

/-- Claim C9: `TestSuiteFromYAML` rejects every suite containing a case
with expected boolean `true` and a non-empty expected-error string, and
accepts every other suite with each case normalized via `SafeTestCase`. -/
theorem testSuiteFromYAML_matches_spec :
    ∀ ts : TestSuite,
      ((∃ t ∈ ts.tests, t.expectOutput = true ∧ t.expectError ≠ "") →
          exceptIsError (TestSuiteFromYAML ts) = true) ∧
      ((∀ t ∈ ts.tests, t.expectOutput = true → t.expectError = "") →
          TestSuiteFromYAML ts = .ok { ts with tests := ts.tests.map SafeTestCase }) := by
  intro ts
  constructor
  · intro h
    unfold TestSuiteFromYAML
    have := validateTests_err ts.tests h
    cases hv : validateTests ts.tests with
    | ok r => rw [hv] at this; exact absurd this (by simp [exceptIsError])
    | error msg => rfl
  · intro h
    unfold TestSuiteFromYAML
    rw [validateTests_ok ts.tests h]
    rfl

/-- Witness for claim C9: a one-case suite declaring both `expect: true`
and a non-empty `error` is rejected. -/
theorem testSuiteFromYAML_matches_spec_witness :
    exceptIsError (TestSuiteFromYAML
      { name := "s", expr := "true",
        tests := [{ name := "t", expectOutput := true, expectError := "boom" }] }) = true :=
  (testSuiteFromYAML_matches_spec _).1
    ⟨{ name := "t", expectOutput := true, expectError := "boom" },
      List.mem_singleton.mpr rfl, rfl, by decide⟩

/-- Claim C3 (code bug): `lowerASCII` is not total — on the two-code-point
input `"éA"` (U+00E9 at byte offset 0, U+0041 at byte offset 2) the byte
offset 2 indexes the two-element rune slice out of range, a Go runtime
panic (`none`); `upperASCII`, which iterates the rune slice, folds the same
shape correctly. -/
theorem lowerASCII_panics_on_mixed :
    lowerASCII [233, 65] = none
    ∧ upperASCII [233, 97] = [233, 65]
    ∧ lowerASCII [65, 98, 67] = some [97, 98, 99] := by
  refine ⟨rfl, rfl, rfl⟩

/-- Counterexample to claim C1 as stated: `urlDecode` does convert `+` to a
space (Go's `url.QueryUnescape` query-component convention), so
`urlDecode("value=Url+Encoded%21")` is `"value=Url Encoded!"`, not
`"value=Url+Encoded!"`. -/
theorem urlDecode_plus_counterexample :
    urlDecodeString (strBytes "value=Url+Encoded%21")
        = .ok (strBytes "value=Url Encoded!")
    ∧ urlDecodeString (strBytes "value=Url+Encoded%21")
        ≠ .ok (strBytes "value=Url+Encoded!") := by
  constructor
  · rfl
  · decide

/-- Claim C1 amended: `urlDecode` percent-decodes every well-formed `%XX`
escape to its byte, hard-errors on every malformed `%` escape, converts `+`
to a space, and copies every other character unchanged; on
`"value=Url+Encoded%21"` only `%21` is decoded to `!` and the `+` becomes a
space. -/
theorem urlDecode_amended_spec :
    (∀ a b rest, ishex a = true → ishex b = true →
        urlDecodeString (37 :: a :: b :: rest)
          = (urlDecodeString rest).map (fun t => (unhex a * 16 + unhex b) :: t)) ∧
    (∀ a b rest, (ishex a && ishex b) = false →
        urlDecodeString (37 :: a :: b :: rest) = .error (37 :: a :: [b])) ∧
    (∀ a, urlDecodeString [37, a] = .error [37, a]) ∧
    (urlDecodeString [37] = .error [37]) ∧
    (∀ rest, urlDecodeString (43 :: rest)
        = (urlDecodeString rest).map (fun t => 32 :: t)) ∧
    (∀ c rest, c ≠ 37 → c ≠ 43 →
        urlDecodeString (c :: rest) = (urlDecodeString rest).map (fun t => c :: t)) ∧
    urlDecodeString (strBytes "value=Url+Encoded%21")
      = .ok (strBytes "value=Url Encoded!") := by
  refine ⟨?_, ?_, ?_, rfl, ?_, ?_, rfl⟩
  · intro a b rest ha hb
    unfold urlDecodeString
    rw [queryUnescape]
    simp [ha, hb]
  · intro a b rest hab
    unfold urlDecodeString
    rw [queryUnescape]
    simp [hab]
  · intro a; rfl
  · intro rest; rfl
  · intro c rest h37 h43
    unfold urlDecodeString
    rw [queryUnescape.eq_def]
    split <;> rename_i heq
    · simp at heq
    all_goals
      first
      | (obtain ⟨h1, h2⟩ := List.cons.inj heq
         first
         | exact absurd h1 h37
         | exact absurd h1 h43
         | (subst h1; subst h2; rfl))

/-- Witness for claim C1 (amended) at `%21`: the escape decodes to byte 33. -/
theorem urlDecode_amended_spec_witness :
    urlDecodeString [37, 50, 49]
      = (urlDecodeString []).map (fun t => (unhex 50 * 16 + unhex 49) :: t) :=
  urlDecode_amended_spec.1 50 49 [] (by decide) (by decide)

/-- Counterexample to claim C4 as stated: a `%u` followed by four non-hex
characters is not a hard error — `urlDecodeUni("%uZZZZ")` succeeds,
returning the input unchanged (the `%` is copied literally because the
fallback `%XX` decode of `%uZ` fails, and the rest is copied verbatim). -/
theorem urlDecodeUni_nonhex_counterexample :
    urlDecodeUniString (strBytes "%uZZZZ") = .ok (strBytes "%uZZZZ")
    ∧ exceptIsError (urlDecodeUniString (strBytes "%uZZZZ")) = false := by
  exact ⟨rfl, rfl⟩

/-- Claim C4 amended: `urlDecodeUni` hard-errors on a `%u`/`%U` with fewer
than four characters remaining after it; it decodes `%u` plus four hex
digits forming a valid (non-surrogate) code point as that code point,
advancing six characters; but `%u` followed by four characters that do not
form such a quadruple is not an error: the scan falls through to the
single-byte `%XX` attempt, which (as `u` is not a hex digit) copies the `%`
literally and resumes at the following character. -/
theorem urlDecodeUni_amended_spec :
    (∀ (u2 : Nat) (l : List Nat), (u2 = 117 ∨ u2 = 85) → l.length < 4 →
        urlDecodeUniString (37 :: u2 :: l) = .error "invalid URL escape sequence") ∧
    (∀ (u2 d1 d2 d3 d4 : Nat) (rest : List Nat) (v : Nat),
        (u2 = 117 ∨ u2 = 85) → uniUnquote d1 d2 d3 d4 = some v →
        urlDecodeUniString (37 :: u2 :: d1 :: d2 :: d3 :: d4 :: rest)
          = (urlDecodeUniString rest).map (fun t => utf8EncodeRune v ++ t)) ∧
    (∀ (u2 d1 d2 d3 d4 : Nat) (rest : List Nat),
        (u2 = 117 ∨ u2 = 85) → uniUnquote d1 d2 d3 d4 = none →
        urlDecodeUniString (37 :: u2 :: d1 :: d2 :: d3 :: d4 :: rest)
          = (urlDecodeUniString (u2 :: d1 :: d2 :: d3 :: d4 :: rest)).map
              (fun t => 37 :: t)) ∧
    urlDecodeUniString (strBytes "value=Unicode%20Url%u0020Encoded%u0021")
      = .ok (strBytes "value=Unicode Url Encoded!") := by
  refine ⟨?_, ?_, ?_, rfl⟩
  · intro u2 l hu hl
    match l with
    | [] => rcases hu with h | h <;> subst h <;> rfl
    | [c2] => rcases hu with h | h <;> subst h <;> simp [urlDecodeUniString]
    | [c2, c3] => rcases hu with h | h <;> subst h <;> simp [urlDecodeUniString]
    | [c2, c3, c4] => rcases hu with h | h <;> subst h <;> simp [urlDecodeUniString]
    | c2 :: c3 :: c4 :: c5 :: t => exact absurd hl (by simp)
  · intro u2 d1 d2 d3 d4 rest v hu hq
    rcases hu with h | h <;> subst h <;> simp [urlDecodeUniString, hq]
  · intro u2 d1 d2 d3 d4 rest hu hq
    rcases hu with h | h <;> subst h <;> simp [urlDecodeUniString, hq]

/-- Witness for claim C4 (amended): `"%u12"` (two characters after `%u`) is
the hard truncation error. -/
theorem urlDecodeUni_amended_spec_witness :
    urlDecodeUniString (37 :: 117 :: [49, 50]) = .error "invalid URL escape sequence" :=
  urlDecodeUni_amended_spec.1 117 [49, 50] (Or.inl rfl) (by decide)

/-! ## Header-map lemmas -/

/-- Writing key `k` makes `k` resolvable. -/
theorem hLookup_hInsert_self (m : List (String × String)) (k v : String) :
    hLookup (hInsert m k v) k = some v := by
  induction m with
  | nil => simp [hInsert, hLookup]
  | cons p t ih =>
    by_cases h : p.1 = k
    · simp [hInsert, hLookup, h]
    · simp [hInsert, hLookup, h, ih]

/-- Writing key `k` does not affect other keys. -/
theorem hLookup_hInsert_other (m : List (String × String)) (k v k2 : String)
    (h : k2 ≠ k) : hLookup (hInsert m k v) k2 = hLookup m k2 := by
  have hk : ¬k = k2 := Ne.symm h
  induction m with
  | nil => simp [hInsert, hLookup, hk]
  | cons p t ih =>
    by_cases hp : p.1 = k
    · simp [hInsert, hLookup, hp, hk]
    · by_cases hp2 : p.1 = k2 <;> simp [hInsert, hLookup, hp, hp2, h, ih]

/-- Map writes never remove resolvable keys. -/
theorem hLookup_hInsert_isSome (m : List (String × String)) (k v k2 : String)
    (h : (hLookup m k2).isSome = true) :
    (hLookup (hInsert m k v) k2).isSome = true := by
  by_cases hk : k2 = k
  · subst hk; rw [hLookup_hInsert_self]; rfl
  · rw [hLookup_hInsert_other m k v k2 hk]; exact h

/-- The lowercasing fold never removes resolvable keys. -/
theorem hLookup_fold_isSome (l : List (String × String)) :
    ∀ (A : List (String × String)) (k2 : String),
      (hLookup A k2).isSome = true →
      (hLookup (l.foldl (fun acc p => hInsert acc (goToLower p.1) p.2) A) k2).isSome
        = true := by
  induction l with
  | nil => intro A k2 h; exact h
  | cons q t ih =>
    intro A k2 h
    exact ih _ k2 (hLookup_hInsert_isSome A (goToLower q.1) q.2 k2 h)

/-- After the lowercasing fold, the lowered key of every folded entry is
resolvable. -/
theorem hLookup_fold_lowered (l : List (String × String)) :
    ∀ (A : List (String × String)), ∀ p ∈ l,
      (hLookup (l.foldl (fun acc p => hInsert acc (goToLower p.1) p.2) A)
          (goToLower p.1)).isSome = true := by
  induction l with
  | nil => intro A p hp; exact absurd hp (List.not_mem_nil p)
  | cons q t ih =>
    intro A p hp
    rcases List.mem_cons.mp hp with heq | hmem
    · subst heq
      exact hLookup_fold_isSome t _ _
        (by rw [hLookup_hInsert_self]; rfl)
    · exact ih _ p hmem

/-- A member's key is resolvable. -/
theorem hLookup_isSome_of_mem (m : List (String × String)) :
    ∀ p ∈ m, (hLookup m p.1).isSome = true := by
  induction m with
  | nil => intro p hp; exact absurd hp (List.not_mem_nil p)
  | cons q t ih =>
    intro p hp
    rcases List.mem_cons.mp hp with heq | hmem
    · subst heq; simp [hLookup]
    · by_cases hq : q.1 = p.1
      · simp [hLookup, hq]
      · simp only [hLookup, hq, if_false]
        exact ih p hmem

/-- Counterexample to claim C2 as stated: normalizing the header map
`{"User-Agent": "x"}` adds the lowercase key but keeps the original
mixed-case key — after `SafeVariables` (and `HTTPHeaders`) the map is
`{"User-Agent": "x", "user-agent": "x"}` and the differently-cased original
key is still present. -/
theorem headerLowercasing_counterexample :
    ((SafeVariables { request := some { headers := some [("User-Agent", "x")] } }
        ).request.getD {}).headers
      = some [("User-Agent", "x"), ("user-agent", "x")]
    ∧ hLookup (((SafeVariables
          { request := some { headers := some [("User-Agent", "x")] } }
        ).request.getD {}).headers.getD []) "User-Agent" = some "x"
    ∧ HTTPHeaders [("User-Agent", "x")]
      = [("User-Agent", "x"), ("user-agent", "x")] := by
  refine ⟨rfl, rfl, rfl⟩

/-- Claim C2 amended: for header maps whose keys are all-ASCII (the domain
on which `goToLower` is exactly `strings.ToLower`), after normalization —
under every iteration order `ord` of the range-while-assigning loop that
visits at least the original entries — the lowercase form of every input
header key is present in the map, but keys are never removed: every
original key, including a differently-cased one, remains present alongside
its lowercase form.  `HTTPHeaders` and `SafeVariables` are the instances of
the loop whose order is the entry list itself. -/
theorem headerLowercasing_amended_spec :
    (∀ (m ord : List (String × String)),
        (∀ p ∈ m, ∀ c ∈ p.1.data, c.val.toNat < 128) →
        (∀ p ∈ m, p ∈ ord) →
        ∀ p ∈ m,
          (hLookup (lowerHeaderKeysOrd ord m) (goToLower p.1)).isSome = true
          ∧ (hLookup (lowerHeaderKeysOrd ord m) p.1).isSome = true) ∧
    (∀ m : List (String × String), HTTPHeaders m = lowerHeaderKeysOrd m m) ∧
    (∀ v : Variables,
        ((SafeVariables v).request.getD {}).headers
          = some (lowerHeaderKeysOrd ((v.request.getD {}).headers.getD [])
              ((v.request.getD {}).headers.getD []))) := by
  refine ⟨?_, fun m => rfl, fun v => rfl⟩
  intro m ord _hascii hord p hp
  exact ⟨hLookup_fold_lowered ord m p (hord p hp),
    hLookup_fold_isSome ord m p.1 (hLookup_isSome_of_mem m p hp)⟩

/-- Witness for claim C2 (amended) on the map `{"User-Agent": "x"}` with
the in-order iteration: both `"user-agent"` and `"User-Agent"` resolve
after normalization. -/
theorem headerLowercasing_amended_spec_witness :
    (hLookup (lowerHeaderKeysOrd [("User-Agent", "x")] [("User-Agent", "x")])
        (goToLower "User-Agent")).isSome = true
    ∧ (hLookup (lowerHeaderKeysOrd [("User-Agent", "x")] [("User-Agent", "x")])
        "User-Agent").isSome = true :=
  headerLowercasing_amended_spec.1 [("User-Agent", "x")] [("User-Agent", "x")]
    (by decide) (fun p hp => hp) ("User-Agent", "x") (List.mem_singleton.mpr rfl)

/-! ## Idempotence of header normalization -/

/-- `Char.ofNat` at a valid code point keeps the value. -/
theorem charOfNat_val (n : Nat) (h : n.isValidChar) :
    (Char.ofNat n).val.toNat = n := by
  rw [Char.ofNat, dif_pos h]
  rfl

/-- One `strings.ToLower` step is idempotent per code point. -/
theorem goToLowerChar_idem (c : Char) :
    goToLowerChar (goToLowerChar c) = goToLowerChar c := by
  unfold goToLowerChar
  by_cases h : (65 ≤ c.val.toNat && c.val.toNat ≤ 90) = true
  · rw [if_pos h]
    simp only [Bool.and_eq_true, decide_eq_true_eq] at h
    have hval : (Char.ofNat (c.val.toNat + 32)).val.toNat = c.val.toNat + 32 :=
      charOfNat_val _ (Or.inl (by omega))
    rw [if_neg (by simp only [hval, Bool.and_eq_true, decide_eq_true_eq]; omega),
      if_neg (by simp only [hval]; omega)]
  · rw [if_neg h]
    by_cases hk : c.val.toNat = 8490
    · rw [if_pos hk]
      have hval : (Char.ofNat 107).val.toNat = 107 :=
        charOfNat_val _ (Or.inl (by omega))
      rw [if_neg (by simp only [hval, Bool.and_eq_true, decide_eq_true_eq]; omega),
        if_neg (by simp only [hval]; omega)]
    · rw [if_neg hk, if_neg h, if_neg hk]

/-- `strings.ToLower` is idempotent. -/
theorem goToLower_idem (s : String) : goToLower (goToLower s) = goToLower s := by
  unfold goToLower
  simp only [List.map_map]
  congr 1
  exact List.map_congr_left (fun c _ => goToLowerChar_idem c)

/-- `goToLower` agrees with ASCII lowercasing on all-ASCII strings (the
domain on which both equal `strings.ToLower`). -/
theorem goToLower_eq_ascii (s : String) (h : ∀ c ∈ s.data, c.val.toNat < 128) :
    goToLower s = asciiLowerKey s := by
  unfold goToLower asciiLowerKey
  congr 1
  refine List.map_congr_left (fun c hc => ?_)
  unfold goToLowerChar asciiLowerChar
  have hcv := h c hc
  by_cases hup : (65 ≤ c.val.toNat && c.val.toNat ≤ 90) = true
  · rw [if_pos hup, if_pos hup]
  · rw [if_neg hup, if_neg hup, if_neg (by omega)]

/-- A fold that never writes `key` leaves `key`'s binding alone. -/
theorem hLookup_foldl_untouched (l : List (String × String)) :
    ∀ (A : List (String × String)) (key : String),
      (∀ q ∈ l, goToLower q.1 ≠ key) →
      hLookup (l.foldl (fun acc p => hInsert acc (goToLower p.1) p.2) A) key
        = hLookup A key := by
  induction l with
  | nil => intro A key _; rfl
  | cons q t ih =>
    intro A key h
    rw [List.foldl_cons, ih _ key (fun r hr => h r (List.mem_cons_of_mem q hr)),
      hLookup_hInsert_other A (goToLower q.1) q.2 key
        (fun h2 => h q (List.mem_cons_self q t) h2.symm)]

/-- A fold in which some entry writes `key` and every entry writing `key`
writes the same value `v` binds `key` to `v`, in every order. -/
theorem hLookup_foldl_consistent (l : List (String × String)) :
    ∀ (A : List (String × String)) (key v : String),
      (∃ q ∈ l, goToLower q.1 = key) →
      (∀ q ∈ l, goToLower q.1 = key → q.2 = v) →
      hLookup (l.foldl (fun acc p => hInsert acc (goToLower p.1) p.2) A) key
        = some v := by
  induction l with
  | nil =>
    intro A key v hex _
    obtain ⟨q, hq, _⟩ := hex
    exact absurd hq (List.not_mem_nil q)
  | cons q t ih =>
    intro A key v hex hcons
    rw [List.foldl_cons]
    by_cases hext : ∃ r ∈ t, goToLower r.1 = key
    · exact ih _ key v hext
        (fun r hr h2 => hcons r (List.mem_cons_of_mem q hr) h2)
    · push_neg at hext
      obtain ⟨r, hr, hrk⟩ := hex
      have hqk : goToLower q.1 = key := by
        rcases List.mem_cons.mp hr with heq | hmem
        · exact heq ▸ hrk
        · exact absurd hrk (hext r hmem)
      rw [hLookup_foldl_untouched t _ key hext, hqk,
        hLookup_hInsert_self A key q.2,
        hcons q (List.mem_cons_self q t) hqk]

/-- Entries of `hInsert` come from the map or are the written pair. -/
theorem mem_hInsert (m : List (String × String)) (k v : String)
    (p : String × String) (hp : p ∈ hInsert m k v) : p ∈ m ∨ p = (k, v) := by
  induction m with
  | nil => simp [hInsert] at hp; exact Or.inr hp
  | cons q t ih =>
    unfold hInsert at hp
    by_cases hq : q.1 = k
    · rw [if_pos hq] at hp
      rcases List.mem_cons.mp hp with heq | hmem
      · exact Or.inr heq
      · exact Or.inl (List.mem_cons_of_mem q hmem)
    · rw [if_neg hq] at hp
      rcases List.mem_cons.mp hp with heq | hmem
      · exact Or.inl (heq ▸ List.mem_cons_self q t)
      · rcases ih hmem with h | h
        · exact Or.inl (List.mem_cons_of_mem q h)
        · exact Or.inr h

/-- Entries after the lowercasing fold come from the accumulator or are a
lowered copy of a folded entry. -/
theorem mem_foldl_lower (l : List (String × String)) :
    ∀ (A : List (String × String)) (p : String × String),
      p ∈ l.foldl (fun acc p => hInsert acc (goToLower p.1) p.2) A →
      p ∈ A ∨ ∃ q ∈ l, p = (goToLower q.1, q.2) := by
  induction l with
  | nil => intro A p hp; exact Or.inl hp
  | cons q t ih =>
    intro A p hp
    rw [List.foldl_cons] at hp
    rcases ih _ p hp with h | ⟨r, hr, hpr⟩
    · rcases mem_hInsert _ _ _ p h with h2 | h2
      · exact Or.inl h2
      · exact Or.inr ⟨q, List.mem_cons_self q t, h2⟩
    · exact Or.inr ⟨r, List.mem_cons_of_mem q hr, hpr⟩

/-- Writing a pair that is already the binding of its key changes nothing. -/
theorem hInsert_of_lookup (m : List (String × String)) (k v : String)
    (h : hLookup m k = some v) : hInsert m k v = m := by
  induction m with
  | nil => exact absurd h (by simp [hLookup])
  | cons q t ih =>
    unfold hInsert
    unfold hLookup at h
    by_cases hq : q.1 = k
    · rw [if_pos hq]
      rw [if_pos hq] at h
      have : (k, v) = q := by
        obtain ⟨q1, q2⟩ := q
        simp only at hq h
        rw [hq, Option.some.inj h]

      rw [this]
    · rw [if_neg hq]
      rw [if_neg hq] at h
      rw [ih h]

/-- A fold whose every step is the identity is the identity. -/
theorem foldl_ins_id (l : List (String × String)) :
    ∀ A : List (String × String),
      (∀ p ∈ l, hInsert A (goToLower p.1) p.2 = A) →
      l.foldl (fun acc p => hInsert acc (goToLower p.1) p.2) A = A := by
  induction l with
  | nil => intro A _; rfl
  | cons q t ih =>
    intro A h
    rw [List.foldl_cons, h q (List.mem_cons_self q t)]
    exact ih A (fun p hp => h p (List.mem_cons_of_mem q hp))

/-- Header normalization is idempotent when no two entries of the original
map collide after lowercasing, for EVERY admissible pair of range orders:
`ord1` is any visit sequence of the first loop (all original entries, plus
possibly lowered copies the loop itself inserted), and `ord2` any sequence
of entries of the normalized map. -/
theorem lowerHeaderKeysOrd_idem (m ord1 ord2 : List (String × String))
    (h : (m.map (fun p => goToLower p.1)).Nodup)
    (h1a : ∀ p ∈ m, p ∈ ord1)
    (h1b : ∀ p ∈ ord1, p ∈ m ∨ ∃ q ∈ m, p = (goToLower q.1, q.2))
    (h2 : ∀ p ∈ ord2, p ∈ lowerHeaderKeysOrd ord1 m) :
    lowerHeaderKeysOrd ord2 (lowerHeaderKeysOrd ord1 m)
      = lowerHeaderKeysOrd ord1 m := by
  have key_lookup : ∀ p ∈ lowerHeaderKeysOrd ord1 m,
      hLookup (lowerHeaderKeysOrd ord1 m) (goToLower p.1) = some p.2 := by
    intro p hp
    -- reduce `p` to a canonical original entry `r ∈ m` lowering to its key
    obtain ⟨r, hr, hlow, hval⟩ :
        ∃ r ∈ m, goToLower r.1 = goToLower p.1 ∧ r.2 = p.2 := by
      rcases mem_foldl_lower ord1 m p hp with hmem | ⟨q, hq, hpq⟩
      · exact ⟨p, hmem, rfl, rfl⟩
      · rcases h1b q hq with hqm | ⟨s, hs, hqs⟩
        · refine ⟨q, hqm, ?_, by rw [hpq]⟩
          rw [hpq]
          exact (goToLower_idem q.1).symm
        · refine ⟨s, hs, ?_, by rw [hpq, hqs]⟩
          rw [hpq, hqs]
          have hss : goToLower (goToLower (goToLower s.1)) = goToLower s.1 := by
            rw [goToLower_idem, goToLower_idem]
          exact hss.symm
    apply hLookup_foldl_consistent ord1 m (goToLower p.1) p.2
    · exact ⟨r, h1a r hr, hlow⟩
    · intro q hq hqk
      rcases h1b q hq with hqm | ⟨s, hs, hqs⟩
      · have : q = r := List.inj_on_of_nodup_map h hqm hr (by rw [hqk, hlow])
        rw [this, hval]
      · have hq1 : goToLower q.1 = goToLower s.1 := by
          rw [hqs]
          exact goToLower_idem s.1
        have hsr : s = r :=
          List.inj_on_of_nodup_map h hs hr (by rw [← hq1, hqk, hlow])
        have hq2 : q.2 = s.2 := by rw [hqs]
        rw [hq2, hsr, hval]
  exact foldl_ins_id ord2 _
    (fun p hp => hInsert_of_lookup _ _ _ (key_lookup p (h2 p hp)))

/-- The KELVIN SIGN U+212A, whose Unicode lower case is `k`. -/
def kelvinSign : String := String.mk [Char.ofNat 8490]

/-- A header map that is collision-free under ASCII lowercasing but
collides at `"k"` under `strings.ToLower`. -/
def c10Headers : List (String × String) := [(kelvinSign, "1"), ("K", "2")]

/-- The `Variables` input carrying `c10Headers`. -/
def c10Vars : Variables := { request := some { headers := some c10Headers } }

/-- A permutation of the normalized map's entries: an iteration order Go's
unspecified map range may present to the second normalization. -/
def c10Ord2 : List (String × String) := [("k", "2"), ("K", "2"), (kelvinSign, "1")]

/-- Counterexample to claim C10 as stated: the input headers
`{U+212A: "1", "K": "2"}` satisfy the claim's precondition (no two distinct
keys equal after ASCII lowercasing — ASCII folding leaves U+212A alone),
yet `strings.ToLower` sends both keys to `"k"`; after a first normalization
in insertion order binds `"k"` to `"2"`, a second normalization iterating
in another admissible order (a permutation of the map's entries) rebinds
`"k"` to `"1"` — the second application changes a header entry. -/
theorem SafeVariables_idem_counterexample :
    (c10Headers.map (fun p => asciiLowerKey p.1)).Nodup
    ∧ List.Perm c10Ord2
        (((SafeVariablesOrd c10Headers c10Vars).request.getD {}).headers.getD [])
    ∧ hLookup (((SafeVariablesOrd c10Headers c10Vars).request.getD {}
        ).headers.getD []) "k" = some "2"
    ∧ hLookup (((SafeVariablesOrd c10Ord2 (SafeVariablesOrd c10Headers c10Vars)
        ).request.getD {}).headers.getD []) "k" = some "1"
    ∧ ((SafeVariablesOrd c10Ord2 (SafeVariablesOrd c10Headers c10Vars)
        ).request.getD {}).headers
      ≠ ((SafeVariablesOrd c10Headers c10Vars).request.getD {}).headers := by
  refine ⟨by decide, by decide, rfl, rfl, by decide⟩

/-- Claim C10 amended: restricted to inputs whose header keys are all-ASCII
(where ASCII lowercasing and `strings.ToLower` coincide) and
collision-free after ASCII lowercasing, `SafeVariables` is idempotent for
EVERY admissible iteration order of the two normalization loops: ord1 any
visit sequence of the first loop (all original entries, plus possibly
lowered copies inserted by the loop itself), ord2 any sequence of entries
of the once-normalized map; no field, sub-record, or header entry changes.
`SafeVariables` itself is the in-order instance. -/
theorem SafeVariables_idempotent_amended :
    (∀ v : Variables,
        SafeVariables v
          = SafeVariablesOrd ((v.request.getD {}).headers.getD []) v) ∧
    (∀ (v : Variables) (ord1 ord2 : List (String × String)),
      (∀ p ∈ (v.request.getD {}).headers.getD [], ∀ c ∈ p.1.data,
          c.val.toNat < 128) →
      ((((v.request.getD {}).headers.getD []).map
          (fun p => asciiLowerKey p.1)).Nodup) →
      (∀ p ∈ (v.request.getD {}).headers.getD [], p ∈ ord1) →
      (∀ p ∈ ord1, p ∈ (v.request.getD {}).headers.getD []
          ∨ ∃ q ∈ (v.request.getD {}).headers.getD [],
              p = (goToLower q.1, q.2)) →
      (∀ p ∈ ord2,
          p ∈ lowerHeaderKeysOrd ord1 ((v.request.getD {}).headers.getD [])) →
      SafeVariablesOrd ord2 (SafeVariablesOrd ord1 v)
        = SafeVariablesOrd ord1 v) := by
  refine ⟨fun v => rfl, ?_⟩
  intro v ord1 ord2 hascii hnd h1a h1b h2
  have hnd2 : ((((v.request.getD {}).headers.getD []).map
      (fun p => goToLower p.1)).Nodup) := by
    have heq : (((v.request.getD {}).headers.getD []).map
          (fun p => goToLower p.1))
        = (((v.request.getD {}).headers.getD []).map
          (fun p => asciiLowerKey p.1)) :=
      List.map_congr_left (fun p hp => goToLower_eq_ascii p.1 (hascii p hp))
    rw [heq]
    exact hnd
  simp only [SafeVariablesOrd, Option.getD_some]
  rw [lowerHeaderKeysOrd_idem _ ord1 ord2 hnd2 h1a h1b h2]

/-- Witness for claim C10 (amended) on the map `{"User-Agent": "x"}` with
the in-order first pass and a second pass visiting both resulting entries. -/
theorem SafeVariables_idempotent_amended_witness :
    SafeVariablesOrd [("User-Agent", "x"), ("user-agent", "x")]
        (SafeVariablesOrd [("User-Agent", "x")]
          { request := some { headers := some [("User-Agent", "x")] } })
      = SafeVariablesOrd [("User-Agent", "x")]
          { request := some { headers := some [("User-Agent", "x")] } } :=
  SafeVariables_idempotent_amended.2
    { request := some { headers := some [("User-Agent", "x")] } }
    [("User-Agent", "x")] [("User-Agent", "x"), ("user-agent", "x")]
    (by decide) (by decide) (by decide) (by decide) (by decide)

end CloudArmor
